import Mathlib

/-!
Verification of the clawrrency core: a shallow embedding of the ledger
engine (`InMemoryLedger.applyTransaction`), the economic checks
(`validateEconomicConstraints`), the identity registry
(`IdentityManager.registerBot` / `canAttest` / `isRegistered`), the skill
marketplace (`SkillMarketplace.purchaseSkill`), the canonical JSON
serializer (`canonicalJson` / `hashData`) and the PBFT validator
(`PBFTValidator`), with theorems settling the frozen claims about them.

Cryptographic primitives (SHA-256, Ed25519) are modelled as oracles:
`hashTx` stands for `hashTransaction`, `sigOk` for
`verifyTransactionSignature`.  Machine numbers are modelled as `Int`/`Nat`
(all values touched by the claims stay far below 2^53, where JS `number`
arithmetic is exact).
-/

namespace Clawrrency

/-! ## Core types (src/packages/core/src/types/index.ts) -/

/-- `TransactionType` from core types. -/
inductive TxType where
  | transfer
  | mint
  | burn
  | stake
  | skill_create
  | skill_purchase
deriving DecidableEq, Repr

/-- `SkillData` payload carried by skill transactions (core types).
The nested manifest is not inspected by the ledger and is omitted. -/
structure SkillData where
  skill_id : String
  manifest_hash : String
  creator_pubkey : String
  price : Int
  created_at : Nat
deriving DecidableEq, Repr

/-- `Transaction` from core types.  `to` and `data` are optional fields. -/
structure Tx where
  version : Nat
  type : TxType
  from_pk : String
  to_pk : Option String
  amount : Int
  nonce : Nat
  timestamp : Nat
  data : Option SkillData
deriving DecidableEq, Repr

/-- `Account` from core types together with the ledger-private
`updated_at` field of `StoredAccount`. -/
structure Account where
  public_key : String
  balance : Int
  nonce : Nat
  reputation : ℚ
  created_at : Nat
  last_active : Nat
  updated_at : Nat
  stake_locked : Int
  stake_unlock_at : Option Nat
deriving DecidableEq, Repr

/-- `StoredTransaction` (ledger.ts): a transaction plus digest,
block height at apply time and apply timestamp. -/
structure StoredTx where
  tx : Tx
  hash : String
  block_height : Nat
  applied_at : Nat
deriving DecidableEq, Repr

/-- `LedgerState` (ledger.ts): the in-memory state object.  The JS
`Record`s are modelled as functions from keys to optional values. -/
structure LedgerState where
  version : Nat
  block_height : Nat
  accounts : String → Option Account
  transactions : String → Option StoredTx
  account_transactions : String → List String

/-! ## Economic rules (economy module) -/

/-- `Number.MAX_SAFE_INTEGER`. -/
def MAX_SAFE_INTEGER : Int := 9007199254740991

/-- `DEFAULT_CURRENCY_CONFIG.burning.transaction_fee`. -/
def transaction_fee : Int := 1

/-- `validateEconomicConstraints` (economy module): returns `none` when the
transaction passes, `some errorMessage` otherwise, mirroring the source's
`{valid, error?}` result. -/
def validateEconomicConstraints (tx : Tx) (sender_balance : Int) : Option String :=
  if tx.amount > MAX_SAFE_INTEGER then some "Amount too large"
  else if tx.amount < 0 then some "Negative amount not allowed"
  else if tx.amount = 0 ∧ tx.type = .transfer then some "Zero amount transfer not allowed"
  else if sender_balance < tx.amount + transaction_fee then some "Insufficient balance"
  else none

/-! ## Ledger engine (src/packages/ledger/src/ledger.ts) -/

/-- Result of `applyTransaction`: `{success: true}` or
`{success: false, error}`. -/
inductive ApplyResult where
  | success
  | failure (error : String)
deriving DecidableEq, Repr

/-- Update the optional account stored under key `k`. -/
def updAccount (m : String → Option Account) (k : String)
    (f : Account → Account) : String → Option Account :=
  fun k' => if k' = k then (m k').map f else m k'

/-- Append a digest to the per-account index of `k`, creating the entry
if missing (the JS code initialises the array before pushing). -/
def pushIndex (m : String → List String) (k : String) (h : String) :
    String → List String :=
  fun k' => if k' = k then m k' ++ [h] else m k'

/-- Step 8 of `applyTransaction`: append the stored-transaction record to
the global log and the digest to the per-account indices (recipient index
only when `tx.to` is present and differs from `tx.from`), then report
success. -/
def appendRecord (txHash : String) (now : Nat) (tx : Tx) (s₁ : LedgerState) :
    ApplyResult × LedgerState :=
  let storedTx : StoredTx :=
    { tx := tx, hash := txHash, block_height := s₁.block_height,
      applied_at := now }
  let txs := fun h => if h = txHash then some storedTx else s₁.transactions h
  let idx₁ := pushIndex s₁.account_transactions tx.from_pk txHash
  let idx₂ := match tx.to_pk with
    | some r => if r ≠ tx.from_pk then pushIndex idx₁ r txHash else idx₁
    | none => idx₁
  (.success, { s₁ with transactions := txs, account_transactions := idx₂ })

/-- The sequence of account mutations of the transfer branch of
`applyTransaction`.  Each imperative field assignment of the source is one
map update, so aliasing between sender and recipient
(`tx.to === tx.from`) behaves exactly as in the source. -/
def transferMutations (now : Nat) (tx : Tx) (r : String)
    (m : String → Option Account) : String → Option Account :=
  let totalDebit := tx.amount + transaction_fee
  let m₁ := updAccount m tx.from_pk
    (fun a => { a with balance := a.balance - totalDebit })
  let m₂ := updAccount m₁ r
    (fun a => { a with balance := a.balance + tx.amount })
  let m₃ := updAccount m₂ tx.from_pk
    (fun a => { a with nonce := tx.nonce, last_active := now, updated_at := now })
  updAccount m₃ r (fun a => { a with updated_at := now })

/-- `InMemoryLedger.applyTransaction`.  `hashTx` models
`hashTransaction`, `sigOk` models `verifyTransactionSignature`, and `now`
models `Date.now()` at the time of the call. -/
def applyTransaction (hashTx : Tx → String) (sigOk : Tx → Bool) (now : Nat)
    (tx : Tx) (s : LedgerState) : ApplyResult × LedgerState :=
  let txHash := hashTx tx
  if (s.transactions txHash).isSome then
    (.failure "Transaction already exists (duplicate)", s)
  else
    match s.accounts tx.from_pk with
    | none => (.failure "Sender account not found", s)
    | some sender =>
      if tx.nonce ≠ sender.nonce + 1 then
        (.failure ("Invalid nonce. Expected: " ++ toString (sender.nonce + 1) ++
          ", Got: " ++ toString tx.nonce), s)
      else if ¬ sigOk tx then
        (.failure "Invalid transaction signature", s)
      else
        match validateEconomicConstraints tx sender.balance with
        | some err => (.failure err, s)
        | none =>
          -- step 6: the transfer branch (`tx.type === 'transfer' && tx.to`)
          match tx.to_pk with
          | some r =>
            if tx.type = .transfer then
              match s.accounts r with
              | none => (.failure "Recipient account not found", s)
              | some _ =>
                if sender.balance < tx.amount + transaction_fee then
                  (.failure "Insufficient balance", s)
                else
                  appendRecord txHash now tx
                    { s with accounts := transferMutations now tx r s.accounts }
            else appendRecord txHash now tx s
          | none => appendRecord txHash now tx s

/-- `InMemoryLedger.getBalance`: `account?.balance || 0`. -/
def getBalance (s : LedgerState) (public_key : String) : Int :=
  match s.accounts public_key with
  | some a => a.balance
  | none => 0

/-- Nonce of an account as stored in the ledger (0 for absent accounts). -/
def getNonce (s : LedgerState) (public_key : String) : Nat :=
  match s.accounts public_key with
  | some a => a.nonce
  | none => 0

/-! ## Identity registry (identity.ts, `IdentityManager`) -/

/-- `STAKE_REQUIREMENTS.registration`. -/
def stake_registration : Int := 50

/-- `STAKE_REQUIREMENTS.attestation_reduction`. -/
def stake_attestation_reduction : Int := 25

/-- `STAKE_REQUIREMENTS.minimum_reputation_for_attestation`. -/
def minimum_reputation_for_attestation : ℚ := 100

/-- `STAKE_REQUIREMENTS.registration_lock_days`, in milliseconds. -/
def registration_lock_ms : Nat := 30 * 24 * 60 * 60 * 1000

/-- `BotIdentity` (identity.ts). -/
structure BotId where
  public_key : String
  private_key : String
  created_at : Nat
  reputation : ℚ
  staked_amount : Int
  stake_locked_until : Nat
  attestations : List String
deriving DecidableEq, Repr

/-- `IdentityStorage` (identity.ts). -/
structure IdentityStorage where
  bots : String → Option BotId
  attestations : String → List String
  version : Nat

/-- `IdentityManager.registerBot`.  Note that the source checks only the
stake minimum (reduced when any `attestation` argument is supplied); it
never consults `canAttest` or the attester's record. -/
def registerBot (now : Nat) (public_key : String) (stake_amount : Int)
    (attestation : Option String) (st : IdentityStorage) :
    ApplyResult × IdentityStorage :=
  match st.bots public_key with
  | none => (.failure "Identity not found", st)
  | some identity =>
    let required_stake := match attestation with
      | some _ => stake_attestation_reduction
      | none => stake_registration
    if stake_amount < required_stake then
      (.failure ("Insufficient stake. Required: " ++ toString required_stake ++
        ", Provided: " ++ toString stake_amount), st)
    else
      let identity' :=
        { identity with
            staked_amount := stake_amount,
            stake_locked_until := now + registration_lock_ms,
            attestations := match attestation with
              | some a => identity.attestations ++ [a]
              | none => identity.attestations }
      let bots' := fun k => if k = public_key then some identity' else st.bots k
      let atts' := match attestation with
        | some a => fun k => if k = a then st.attestations k ++ [public_key]
                             else st.attestations k
        | none => st.attestations
      (.success, { st with bots := bots', attestations := atts' })

/-- `IdentityManager.canAttest`: the attester exists and has reputation at
least `minimum_reputation_for_attestation`. -/
def canAttest (st : IdentityStorage) (attester_public_key : String) : Bool :=
  match st.bots attester_public_key with
  | none => false
  | some attester => attester.reputation ≥ minimum_reputation_for_attestation

/-- `IdentityManager.isRegistered`: staked amount at least
`STAKE_REQUIREMENTS.registration` and the stake lock not yet expired. -/
def isRegistered (now : Nat) (st : IdentityStorage) (public_key : String) : Bool :=
  match st.bots public_key with
  | none => false
  | some identity =>
    identity.staked_amount ≥ stake_registration ∧ identity.stake_locked_until > now

/-! ## Skill marketplace (skills.ts, `SkillMarketplace`) -/

/-- Listing status (`'active' | 'sold' | 'delisted'`). -/
inductive ListingStatus where
  | active
  | sold
  | delisted
deriving DecidableEq, Repr

/-- `Review` (skills.ts). -/
structure Review where
  reviewer : String
  rating : Int
  comment : String
  timestamp : Nat
deriving DecidableEq, Repr

/-- `SkillListing` (skills.ts). -/
structure SkillListing where
  skill_id : String
  seller : String
  price : Int
  listed_at : Nat
  status : ListingStatus
  sales_count : Nat
  rating : ℚ
  reviews : List Review
deriving DecidableEq, Repr

/-- One file of a `SkillPackage`: `{path, content, hash}`. -/
structure SkillFile where
  path : String
  content : String
  hash : String
deriving DecidableEq, Repr

/-- `SkillPackage` (skills.ts).  The skill/content/compute/service type tag
and the license tag are kept as strings. -/
structure SkillPackage where
  id : String
  name : String
  description : String
  version : String
  type : String
  files : List SkillFile
  manifest_hash : String
  dependencies : List String
  license : String
  entry_point : Option String
  created_by : String
  created_at : Nat
deriving DecidableEq, Repr

/-- `SkillPurchase` (skills.ts). -/
structure SkillPurchase where
  skill_id : String
  buyer : String
  seller : String
  price : Int
  purchased_at : Nat
  transaction_hash : String
deriving DecidableEq, Repr

/-- `SkillStorage` (skills.ts). -/
structure SkillStorage where
  skills : String → Option SkillPackage
  listings : String → Option SkillListing
  purchases : String → List SkillPurchase
  version : Nat

/-- `SkillMarketplace.purchaseSkill`.  `hashTx`/`sigOk` are the ledger's
crypto oracles; `hashRecord` models the `hashData({...tx, signature})` call
that produces the recorded purchase hash.  The buyer's private key only
feeds `signTransaction`, whose outcome the `sigOk` oracle decides, so it is
not a parameter here.  The `updateReputation` side effect on the identity
registry (counting one successful trade) is not modelled; no claim observes
it. -/
def purchaseSkill (hashTx : Tx → String) (sigOk : Tx → Bool)
    (hashRecord : Tx → String) (now : Nat) (skill_id buyer : String)
    (mkt : SkillStorage) (led : LedgerState) :
    ApplyResult × SkillStorage × LedgerState :=
  match mkt.listings skill_id with
  | none => (.failure "Skill not available for purchase", mkt, led)
  | some listing =>
    if listing.status ≠ .active then
      (.failure "Skill not available for purchase", mkt, led)
    else
      match mkt.skills skill_id with
      | none => (.failure "Skill not found", mkt, led)
      | some skill =>
        if getBalance led buyer < listing.price then
          (.failure "Insufficient balance", mkt, led)
        else
          match led.accounts buyer with
          | none => (.failure "Buyer account not found", mkt, led)
          | some buyerAccount =>
            let tx : Tx :=
              { version := 1, type := .skill_purchase, from_pk := buyer,
                to_pk := some listing.seller, amount := listing.price,
                nonce := buyerAccount.nonce + 1, timestamp := now,
                data := some
                  { skill_id := skill_id, manifest_hash := skill.manifest_hash,
                    creator_pubkey := skill.created_by, price := listing.price,
                    created_at := skill.created_at } }
            match applyTransaction hashTx sigOk now tx led with
            | (.failure e, led') => (.failure e, mkt, led')
            | (.success, led') =>
              let purchase : SkillPurchase :=
                { skill_id := skill_id, buyer := buyer, seller := listing.seller,
                  price := listing.price, purchased_at := now,
                  transaction_hash := hashRecord tx }
              let purchases' := fun k =>
                if k = skill_id then mkt.purchases k ++ [purchase]
                else mkt.purchases k
              let listings' := fun k =>
                if k = skill_id then
                  some { listing with sales_count := listing.sales_count + 1 }
                else mkt.listings k
              (.success,
                { mkt with purchases := purchases', listings := listings' }, led')

/-! ## Canonical JSON (src/packages/core/src/crypto/index.ts) -/

/-- A JSON-like value as fed to `canonicalJson`.  Scalars (strings,
numbers, booleans, null) are kept as their serialized token —
`JSON.stringify` renders a given scalar deterministically, and only the
treatment of objects and arrays matters for key-reordering claims. -/
inductive Jv where
  | atom (token : String)
  | arr (elems : List Jv)
  | obj (fields : List (String × Jv))

/-- `a.1 ≤ b.1`: the key order used when `canonicalJson` sorts the fields
of an object (`Object.keys(value).sort()`, lexicographic). -/
def keyLE (a b : String × String) : Prop := a.1 ≤ b.1

instance : DecidableRel keyLE := fun a b => inferInstanceAs (Decidable (a.1 ≤ b.1))

instance : IsTotal (String × String) keyLE := ⟨fun a b => le_total a.1 b.1⟩

instance : IsTrans (String × String) keyLE := ⟨fun _ _ _ h h' => le_trans h h'⟩

/-- Sort serialized object fields by key, as the replacer in
`canonicalJson` does with `Object.keys(value).sort()`. -/
def sortFields (l : List (String × String)) : List (String × String) :=
  l.insertionSort keyLE

/-- Serialize an object key (`JSON.stringify` quoting; the escaping of
exotic characters inside the key is irrelevant to reorder-invariance). -/
def jsonQuote (k : String) : String := "\"" ++ k ++ "\""

mutual

/-- `canonicalJson`: `JSON.stringify` with the key-sorting replacer.  The
replacer rebuilds every object with its keys sorted lexicographically
before serialization; serializing the values first and then sorting the
(key, serialized-value) pairs by key yields the same string. -/
def canonicalJson : Jv → String
  | .atom s => s
  | .arr l => "[" ++ String.intercalate "," (canonList l) ++ "]"
  | .obj kvs =>
      "\x7b" ++ String.intercalate ","
        ((sortFields (canonFields kvs)).map
          (fun kv => jsonQuote kv.1 ++ ":" ++ kv.2)) ++ "\x7d"

/-- Serialize each element of a JSON array in order. -/
def canonList : List Jv → List String
  | [] => []
  | x :: xs => canonicalJson x :: canonList xs

/-- Serialize the value of each object field, keeping the field order. -/
def canonFields : List (String × Jv) → List (String × String)
  | [] => []
  | kv :: kvs => (kv.1, canonicalJson kv.2) :: canonFields kvs

end

/-- `hashData` on an object argument: SHA-256 (modelled by the `sha256hex`
oracle) of the canonical JSON serialization. -/
def hashData (sha256hex : String → String) (j : Jv) : String :=
  sha256hex (canonicalJson j)

/-- Key-reordering of a JSON value: identical scalars, arrays pointwise
reordered, and objects whose field lists are permutations of each other
with equal keys bound to reordered values. -/
inductive Reorder : Jv → Jv → Prop where
  | atom (s : String) : Reorder (.atom s) (.atom s)
  | arr {l₁ l₂ : List Jv} (h : List.Forall₂ Reorder l₁ l₂) :
      Reorder (.arr l₁) (.arr l₂)
  | obj {l₁ l₂ : List (String × Jv)} (l : List (String × Jv))
      (hp : l₁.Perm l)
      (hk : l.map Prod.fst = l₂.map Prod.fst)
      (h : List.Forall₂ Reorder (l.map Prod.snd) (l₂.map Prod.snd)) :
      Reorder (.obj l₁) (.obj l₂)

/-- Well-formedness of a JSON value as produced from a JS object: at every
object level the keys are distinct (a JS object cannot bind one key
twice). -/
inductive KeysNodup : Jv → Prop where
  | atom (s : String) : KeysNodup (.atom s)
  | arr {l : List Jv} (h : ∀ x ∈ l, KeysNodup x) : KeysNodup (.arr l)
  | obj {kvs : List (String × Jv)} (hk : (kvs.map Prod.fst).Nodup)
      (h : ∀ kv ∈ kvs, KeysNodup kv.2) : KeysNodup (.obj kvs)

/-! ## PBFT consensus (pbft.ts, `PBFTValidator`) -/

/-- `PeerInfo` (pbft.ts). -/
structure PeerInfo where
  id : String
  public_key : String
  endpoint : String
deriving DecidableEq, Repr

/-- `ValidatorConfig` (pbft.ts).  The private key only feeds the message
signing oracle and is omitted. -/
structure ValidatorConfig where
  validator_id : String
  public_key : String
  peers : List PeerInfo
  view_timeout_ms : Nat
deriving DecidableEq, Repr

/-- Consensus message type tag. -/
inductive MsgType where
  | prePrepare
  | prepare
  | commit
deriving DecidableEq, Repr

/-- `ConsensusMessage`.  The signature field is produced by the signing
oracle and checked by `verifyMessage`, whose outcome each handler receives
as the `ok` argument; the field itself is omitted. -/
structure ConsensusMsg where
  type : MsgType
  view : Nat
  sequence : Nat
  digest : String
  validator : String
deriving DecidableEq, Repr

/-- `PendingTransaction` (pbft.ts). -/
structure PendingTx where
  tx : Tx
  received_at : Nat
  pre_prepared : Bool
  prepared : Bool
  committed : Bool
deriving DecidableEq, Repr

/-- Ghost record of one `broadcastCommit` invocation: the digest, the
recorded PREPARE vote set for that digest at that moment, and the
`pre_prepared` flag of the pending entry at that moment. -/
structure CommitEvent where
  digest : String
  prepSet : Finset String
  pre_prepared : Bool
deriving DecidableEq, Inhabited

/-- `PBFTState` plus the pending map, message log, the ledger the
validator drives, and the ghost list of `broadcastCommit` invocations. -/
structure PBFTState where
  view : Nat
  sequence : Nat
  is_leader : Bool
  leader_id : String
  prepared : String → Finset String
  committed : String → Finset String
  checkpoint : Nat
  pending : String → Option PendingTx
  message_log : List ConsensusMsg
  ledger : LedgerState
  commit_events : List CommitEvent

/-- `n`: the full validator set size, `peers.length + 1`. -/
def numValidators (cfg : ValidatorConfig) : Nat := cfg.peers.length + 1

/-- `f = ⌊(n − 1) / 3⌋`. -/
def byzF (cfg : ValidatorConfig) : Nat := (numValidators cfg - 1) / 3

/-- `quorum = 2f + 1`. -/
def quorum (cfg : ValidatorConfig) : Nat := 2 * byzF cfg + 1

/-- `PBFTValidator.electLeader`. -/
def electLeader (cfg : ValidatorConfig) (view : Nat) : String :=
  if cfg.peers.length = 0 then cfg.validator_id
  else
    let all_validators := cfg.validator_id :: cfg.peers.map (fun p => p.id)
    all_validators.getD (view % all_validators.length) cfg.validator_id

/-- `PBFTValidator.commitTransaction`: apply the transaction to the
ledger; on success erase the pending entry and both per-digest vote sets
(the registered commit callbacks, which receive the transaction, are not
modelled — no claim observes them). -/
def commitTransaction (hashTx : Tx → String) (sigOk : Tx → Bool) (now : Nat)
    (tx_hash : String) (tx : Tx) (s : PBFTState) : PBFTState :=
  match applyTransaction hashTx sigOk now tx s.ledger with
  | (.success, led') =>
    { s with ledger := led',
             pending := fun d => if d = tx_hash then none else s.pending d,
             prepared := fun d => if d = tx_hash then ∅ else s.prepared d,
             committed := fun d => if d = tx_hash then ∅ else s.committed d }
  | (_, led') => { s with ledger := led' }

/-- `PBFTValidator.handleCommit`.  `ok` is the outcome of
`verifyMessage`. -/
def handleCommit (cfg : ValidatorConfig) (hashTx : Tx → String)
    (sigOk : Tx → Bool) (now : Nat) (ok : Bool) (msg : ConsensusMsg)
    (s : PBFTState) : PBFTState :=
  if msg.type ≠ .commit then s
  else if ¬ ok then s
  else if msg.view ≠ s.view then s
  else
    let votes := insert msg.validator (s.committed msg.digest)
    let s₁ := { s with committed := (fun d =>
      if d = msg.digest then votes else s.committed d) }
    let commit_count := votes.card + 1
    if commit_count ≥ quorum cfg then
      match s₁.pending msg.digest with
      | some p =>
        if ¬ p.committed then
          let s₂ := { s₁ with pending := (fun d =>
            if d = msg.digest then some { p with committed := true }
            else s₁.pending d) }
          commitTransaction hashTx sigOk now msg.digest p.tx s₂
        else s₁
      | none => s₁
    else s₁

/-- `PBFTValidator.broadcastCommit`: log the self-signed COMMIT and handle
it locally (its own signature verifies, so `ok = true`). -/
def broadcastCommit (cfg : ValidatorConfig) (hashTx : Tx → String)
    (sigOk : Tx → Bool) (now : Nat) (tx_hash : String) (s : PBFTState) :
    PBFTState :=
  let message : ConsensusMsg :=
    { type := .commit, view := s.view, sequence := s.sequence,
      digest := tx_hash, validator := cfg.validator_id }
  let s₁ := { s with message_log := s.message_log ++ [message] }
  handleCommit cfg hashTx sigOk now true message s₁

/-- `PBFTValidator.handlePrepare`.  The vote set is keyed by digest only;
the view is checked against the current view on receipt and the sequence
is never checked.  When the counted quorum (recorded votes plus the
handler's own implicit vote) is reached and the pending entry is not yet
prepared, mark it prepared, record the ghost commit event, and broadcast
COMMIT. -/
def handlePrepare (cfg : ValidatorConfig) (hashTx : Tx → String)
    (sigOk : Tx → Bool) (now : Nat) (ok : Bool) (msg : ConsensusMsg)
    (s : PBFTState) : PBFTState :=
  if msg.type ≠ .prepare then s
  else if ¬ ok then s
  else if msg.view ≠ s.view then s
  else
    let votes := insert msg.validator (s.prepared msg.digest)
    let s₁ := { s with prepared := (fun d =>
      if d = msg.digest then votes else s.prepared d) }
    let prepare_count := votes.card + 1
    if prepare_count ≥ quorum cfg then
      match s₁.pending msg.digest with
      | some p =>
        if ¬ p.prepared then
          let s₂ := { s₁ with
            pending := (fun d =>
              if d = msg.digest then some { p with prepared := true }
              else s₁.pending d),
            commit_events := s₁.commit_events ++
              [{ digest := msg.digest, prepSet := votes,
                 pre_prepared := p.pre_prepared }] }
          broadcastCommit cfg hashTx sigOk now msg.digest s₂
        else s₁
      | none => s₁
    else s₁

/-- `PBFTValidator.broadcastPrepare`. -/
def broadcastPrepare (cfg : ValidatorConfig) (hashTx : Tx → String)
    (sigOk : Tx → Bool) (now : Nat) (tx_hash : String) (s : PBFTState) :
    PBFTState :=
  let message : ConsensusMsg :=
    { type := .prepare, view := s.view, sequence := s.sequence,
      digest := tx_hash, validator := cfg.validator_id }
  let s₁ := { s with message_log := s.message_log ++ [message] }
  handlePrepare cfg hashTx sigOk now true message s₁

/-- `PBFTValidator.handlePrePrepare`: verify, drop when out of view or not
from the current leader or without a pending entry; otherwise set the
entry's `pre_prepared` flag and broadcast PREPARE. -/
def handlePrePrepare (cfg : ValidatorConfig) (hashTx : Tx → String)
    (sigOk : Tx → Bool) (now : Nat) (ok : Bool) (msg : ConsensusMsg)
    (s : PBFTState) : PBFTState :=
  if msg.type ≠ .prePrepare then s
  else if ¬ ok then s
  else if msg.view ≠ s.view then s
  else if msg.validator ≠ s.leader_id then s
  else
    match s.pending msg.digest with
    | none => s
    | some p =>
      let s₁ := { s with pending := (fun d =>
        if d = msg.digest then some { p with pre_prepared := true }
        else s.pending d) }
      broadcastPrepare cfg hashTx sigOk now msg.digest s₁

/-- `PBFTValidator.broadcastPrePrepare`: emit PRE-PREPARE carrying the
current sequence (post-incremented) and handle it locally. -/
def broadcastPrePrepare (cfg : ValidatorConfig) (hashTx : Tx → String)
    (sigOk : Tx → Bool) (now : Nat) (tx_hash : String) (s : PBFTState) :
    PBFTState :=
  let message : ConsensusMsg :=
    { type := .prePrepare, view := s.view, sequence := s.sequence,
      digest := tx_hash, validator := cfg.validator_id }
  let s₁ := { s with sequence := s.sequence + 1,
                     message_log := s.message_log ++ [message] }
  handlePrePrepare cfg hashTx sigOk now true message s₁

/-- `PBFTValidator.validateTransaction`: signature, sender presence, nonce
against the ledger. -/
def pbftValidateTransaction (sigOk : Tx → Bool) (tx : Tx) (led : LedgerState) :
    Option String :=
  if ¬ sigOk tx then some "Invalid signature"
  else
    match led.accounts tx.from_pk with
    | none => some "Sender account not found"
    | some account =>
      if tx.nonce ≠ account.nonce + 1 then
        some ("Invalid nonce. Expected: " ++ toString (account.nonce + 1))
      else none

/-- `PBFTValidator.submitTransaction`: reject duplicates already pending
and invalid transactions; store the pending entry; as leader, immediately
broadcast PRE-PREPARE. -/
def submitTransaction (cfg : ValidatorConfig) (hashTx : Tx → String)
    (sigOk : Tx → Bool) (now : Nat) (tx : Tx) (s : PBFTState) :
    ApplyResult × PBFTState :=
  let tx_hash := hashTx tx
  if (s.pending tx_hash).isSome then
    (.failure "Transaction already pending", s)
  else
    match pbftValidateTransaction sigOk tx s.ledger with
    | some e => (.failure e, s)
    | none =>
      let s₁ := { s with pending := (fun d =>
        if d = tx_hash then
          some { tx := tx, received_at := now, pre_prepared := false,
                 prepared := false, committed := false }
        else s.pending d) }
      if s.is_leader then
        (.success, broadcastPrePrepare cfg hashTx sigOk now tx_hash s₁)
      else (.success, s₁)

/-- The `PBFTValidator` constructor state: view 0, sequence 0, the leader
elected for view 0, empty vote maps and pending set. -/
def initState (cfg : ValidatorConfig) (led₀ : LedgerState) : PBFTState :=
  let leader_id := electLeader cfg 0
  { view := 0, sequence := 0,
    is_leader := leader_id == cfg.validator_id, leader_id := leader_id,
    prepared := fun _ => ∅, committed := fun _ => ∅, checkpoint := 0,
    pending := fun _ => none, message_log := [], ledger := led₀,
    commit_events := [] }

/-- One externally triggered operation on the validator.  Incoming
messages are arbitrary and `ok` (the signature-verification outcome) is
adversary-controlled, which over-approximates Byzantine peers; `ledger`
steps cover account creation and any other outside use of the shared
ledger. -/
inductive Step (cfg : ValidatorConfig) (hashTx : Tx → String)
    (sigOk : Tx → Bool) : PBFTState → PBFTState → Prop where
  | submit (now : Nat) (tx : Tx) (s : PBFTState) :
      Step cfg hashTx sigOk s (submitTransaction cfg hashTx sigOk now tx s).2
  | prePrepare (now : Nat) (ok : Bool) (msg : ConsensusMsg) (s : PBFTState) :
      Step cfg hashTx sigOk s (handlePrePrepare cfg hashTx sigOk now ok msg s)
  | prepare (now : Nat) (ok : Bool) (msg : ConsensusMsg) (s : PBFTState) :
      Step cfg hashTx sigOk s (handlePrepare cfg hashTx sigOk now ok msg s)
  | commit (now : Nat) (ok : Bool) (msg : ConsensusMsg) (s : PBFTState) :
      Step cfg hashTx sigOk s (handleCommit cfg hashTx sigOk now ok msg s)
  | ledger (led' : LedgerState) (s : PBFTState) :
      Step cfg hashTx sigOk s { s with ledger := led' }

/-- Validator states reachable from construction over any initial
ledger. -/
inductive Reachable (cfg : ValidatorConfig) (hashTx : Tx → String)
    (sigOk : Tx → Bool) : PBFTState → Prop where
  | init (led₀ : LedgerState) : Reachable cfg hashTx sigOk (initState cfg led₀)
  | step {s s' : PBFTState} : Reachable cfg hashTx sigOk s →
      Step cfg hashTx sigOk s s' → Reachable cfg hashTx sigOk s'

/-! ## Validator invariants -/

/-- Every pending entry has its `pre_prepared` flag set (a PRE-PREPARE
from the current leader has been recorded for it). -/
def PendingPreOK (s : PBFTState) : Prop :=
  ∀ d p, s.pending d = some p → p.pre_prepared = true

/-- Every recorded `broadcastCommit` invocation happened for a pending
entry whose `pre_prepared` flag was set. -/
def EventsPreOK (s : PBFTState) : Prop :=
  ∀ e ∈ s.commit_events, e.pre_prepared = true

/-- Every recorded `broadcastCommit` invocation happened when the recorded
PREPARE votes plus the handler's own implicit vote reached the quorum. -/
def EventsQuorumOK (cfg : ValidatorConfig) (s : PBFTState) : Prop :=
  ∀ e ∈ s.commit_events, quorum cfg ≤ e.prepSet.card + 1

/-- The inductive invariant of the validator: the node considers itself
leader (view 0 elects `members[0]`, the node itself, and no view change is
implemented), every pending entry is pre-prepared, and all recorded commit
broadcasts satisfy the two event properties. -/
def Inv (cfg : ValidatorConfig) (s : PBFTState) : Prop :=
  s.leader_id = cfg.validator_id ∧ s.is_leader = true ∧
    PendingPreOK s ∧ EventsPreOK s ∧ EventsQuorumOK cfg s

/-! ## Concrete fixtures for the end-to-end evaluations -/

/-- An account as `createAccount` builds it at time 0 with the given
initial balance. -/
def mkAccount (pk : String) (balance : Int) : Account :=
  { public_key := pk, balance := balance, nonce := 0, reputation := 0,
    created_at := 0, last_active := 0, updated_at := 0, stake_locked := 0,
    stake_unlock_at := none }

/-- Scenario-5 ledger: buyer `B` with balance 1000 and creator `C` with
balance 0, both fresh. -/
def scenarioLedger : LedgerState :=
  { version := 1, block_height := 0,
    accounts := fun k =>
      if k = "B" then some (mkAccount "B" 1000)
      else if k = "C" then some (mkAccount "C" 0)
      else none,
    transactions := fun _ => none,
    account_transactions := fun _ => [] }

/-- Scenario-5 skill `M`: one file `index.js` with content `x=1`, created
by `C`. -/
def skillM : SkillPackage :=
  { id := "M", name := "M", description := "demo", version := "1.0.0",
    type := "skill",
    files := [{ path := "index.js", content := "x=1", hash := "fh" }],
    manifest_hash := "M", dependencies := [], license := "MIT",
    entry_point := none, created_by := "C", created_at := 0 }

/-- Scenario-5 active listing of `M` at price 50 by `C`. -/
def listingM : SkillListing :=
  { skill_id := "M", seller := "C", price := 50, listed_at := 0,
    status := .active, sales_count := 0, rating := 0, reviews := [] }

/-- Scenario-5 marketplace storage. -/
def scenarioMkt : SkillStorage :=
  { skills := fun k => if k = "M" then some skillM else none,
    listings := fun k => if k = "M" then some listingM else none,
    purchases := fun _ => [], version := 1 }

/-- The scenario-5 purchase: `B` buys `M` at price 50. -/
def exPurchase : ApplyResult × SkillStorage × LedgerState :=
  purchaseSkill (fun _ => "t1") (fun _ => true) (fun _ => "r1") 5 "M" "B"
    scenarioMkt scenarioLedger

/-- A signed, nonce-correct `skill_purchase` transaction from `B` to `C`
over 50 shells, as the marketplace constructs it. -/
def exTx4 : Tx :=
  { version := 1, type := .skill_purchase, from_pk := "B", to_pk := some "C",
    amount := 50, nonce := 1, timestamp := 5, data := none }

/-- Applying `exTx4` directly to the scenario ledger. -/
def exApply4 : ApplyResult × LedgerState :=
  applyTransaction (fun _ => "t1") (fun _ => true) 5 exTx4 scenarioLedger

/-- A transfer that carries no recipient field at all. -/
def exTx5 : Tx :=
  { version := 1, type := .transfer, from_pk := "B", to_pk := none,
    amount := 5, nonce := 1, timestamp := 3, data := none }

/-- Applying the recipient-less transfer `exTx5`. -/
def exApply5 : ApplyResult × LedgerState :=
  applyTransaction (fun _ => "t2") (fun _ => true) 3 exTx5 scenarioLedger

/-- Another recipient-less transfer, for the error-handling claim. -/
def exTx6 : Tx :=
  { version := 1, type := .transfer, from_pk := "B", to_pk := none,
    amount := 7, nonce := 1, timestamp := 4, data := none }

/-- Applying the recipient-less transfer `exTx6`. -/
def exApply6 : ApplyResult × LedgerState :=
  applyTransaction (fun _ => "t3") (fun _ => true) 4 exTx6 scenarioLedger

/-- An ordinary transfer `B → C` of 100 shells. -/
def exTx5w : Tx :=
  { version := 1, type := .transfer, from_pk := "B", to_pk := some "C",
    amount := 100, nonce := 1, timestamp := 6, data := none }

/-- Applying the ordinary transfer `exTx5w`. -/
def exApply5w : ApplyResult × LedgerState :=
  applyTransaction (fun _ => "t4") (fun _ => true) 6 exTx5w scenarioLedger

/-- A transfer to a recipient account `X` that does not exist. -/
def exTx6w : Tx :=
  { version := 1, type := .transfer, from_pk := "B", to_pk := some "X",
    amount := 10, nonce := 1, timestamp := 7, data := none }

/-- A transfer from a sender account `Z` that does not exist. -/
def exTx7w : Tx :=
  { version := 1, type := .transfer, from_pk := "Z", to_pk := some "B",
    amount := 10, nonce := 1, timestamp := 8, data := none }

/-- An identity with reputation 0 (cannot attest). -/
def botLowRep : BotId :=
  { public_key := "A", private_key := "ska", created_at := 0, reputation := 0,
    staked_amount := 0, stake_locked_until := 0, attestations := [] }

/-- A fresh identity about to register. -/
def botFresh : BotId :=
  { public_key := "N", private_key := "skn", created_at := 0, reputation := 0,
    staked_amount := 0, stake_locked_until := 0, attestations := [] }

/-- Identity storage holding the low-reputation attester `A` and the fresh
bot `N`. -/
def exIdentityStore : IdentityStorage :=
  { bots := fun k =>
      if k = "A" then some botLowRep
      else if k = "N" then some botFresh
      else none,
    attestations := fun _ => [], version := 1 }

/-- Registering `N` with stake 25 naming the reputation-0 attester `A`. -/
def exRegister : ApplyResult × IdentityStorage :=
  registerBot 0 "N" 25 (some "A") exIdentityStore

/-- A four-member validator configuration (`f = 1`, quorum `3`). -/
def cfg4 : ValidatorConfig :=
  { validator_id := "v", public_key := "vk",
    peers := [{ id := "p1", public_key := "k1", endpoint := "e1" },
              { id := "p2", public_key := "k2", endpoint := "e2" },
              { id := "p3", public_key := "k3", endpoint := "e3" }],
    view_timeout_ms := 5000 }

/-- Ledger for the consensus trace: one funded sender `S`. -/
def pbftLedger : LedgerState :=
  { version := 1, block_height := 0,
    accounts := fun k => if k = "S" then some (mkAccount "S" 1000) else none,
    transactions := fun _ => none,
    account_transactions := fun _ => [] }

/-- The transaction submitted to the validator. -/
def ptx : Tx :=
  { version := 1, type := .transfer, from_pk := "S", to_pk := some "R",
    amount := 100, nonce := 1, timestamp := 0, data := none }

/-- Digest oracle for the consensus trace. -/
def pbftHash : Tx → String := fun _ => "d"

/-- Signature oracle for the consensus trace. -/
def pbftSig : Tx → Bool := fun _ => true

/-- The validator state right after submitting `ptx` (the node, leader of
view 0, pre-prepares and self-prepares: one recorded PREPARE vote). -/
def pbftS1 : PBFTState :=
  (submitTransaction cfg4 pbftHash pbftSig 0 ptx (initState cfg4 pbftLedger)).2

/-- The PREPARE from peer `p1` for digest `d`. -/
def prepP1 : ConsensusMsg :=
  { type := .prepare, view := 0, sequence := 1, digest := "d", validator := "p1" }

/-- The state after peer `p1`'s PREPARE arrives: the counted quorum
(2 recorded votes + 1) is reached and COMMIT is broadcast. -/
def pbftS2 : PBFTState :=
  handlePrepare cfg4 pbftHash pbftSig 0 true prepP1 pbftS1

/-- A two-level JSON object `{b: 1, a: {y: 2, x: 3}}`. -/
def exJvA : Jv :=
  .obj [("b", .atom "1"), ("a", .obj [("y", .atom "2"), ("x", .atom "3")])]

/-- The same object with the keys reordered at both levels. -/
def exJvB : Jv :=
  .obj [("a", .obj [("x", .atom "3"), ("y", .atom "2")]), ("b", .atom "1")]

/-! ## Helper lemmas -/

/-- Reading the updated key returns the mapped account. -/
theorem updAccount_same (m : String → Option Account) (k : String)
    (f : Account → Account) : updAccount m k f k = (m k).map f := by
  simp [updAccount]

/-- Reading any other key is unchanged. -/
theorem updAccount_other (m : String → Option Account) (k : String)
    (f : Account → Account) (k' : String) (h : k' ≠ k) :
    updAccount m k f k' = m k' := by
  simp [updAccount, h]

/-- `appendRecord` always succeeds and never touches the accounts map. -/
theorem appendRecord_eq (txHash : String) (now : Nat) (tx : Tx)
    (s₁ : LedgerState) :
    (appendRecord txHash now tx s₁).1 = .success ∧
      (appendRecord txHash now tx s₁).2.accounts = s₁.accounts := by
  constructor <;> rfl

/-! ## C7 — atomicity of `applyTransaction` on failure -/

/-- C7: whenever `applyTransaction` returns a failure (duplicate digest,
unknown sender, bad nonce, bad signature, failed economic check, unknown
recipient, or insufficient balance), the returned ledger state is exactly
the input state: no account, no log entry and no index is modified. -/
theorem applyTransaction_failure_atomic
    (hashTx : Tx → String) (sigOk : Tx → Bool) (now : Nat) (tx : Tx)
    (s : LedgerState) (e : String) (s' : LedgerState)
    (h : applyTransaction hashTx sigOk now tx s = (.failure e, s')) :
    s' = s := by
  unfold applyTransaction at h
  simp only [appendRecord] at h
  repeat' split at h
  all_goals
    first
    | (injection h with h₁ h₂; exact h₂.symm)
    | (injection h with h₁ h₂; exact ApplyResult.noConfusion h₁)

/-- Witness for C7: a transfer from the absent sender `Z` fails and
returns the scenario ledger unchanged. -/
theorem applyTransaction_failure_atomic_witness :
    (applyTransaction (fun _ => "t7") (fun _ => true) 8 exTx7w
        scenarioLedger).2 = scenarioLedger :=
  applyTransaction_failure_atomic (fun _ => "t7") (fun _ => true) 8 exTx7w
    scenarioLedger "Sender account not found" _ rfl

/-- Characterization of a successful transfer with a recipient field: the
sender and recipient accounts existed and the accounts map of the result
is exactly the transfer-branch mutation of the input map. -/
theorem applyTransaction_transfer_success
    (hashTx : Tx → String) (sigOk : Tx → Bool) (now : Nat) (tx : Tx)
    (s s' : LedgerState) (r : String)
    (h : applyTransaction hashTx sigOk now tx s = (.success, s'))
    (hty : tx.type = .transfer) (hto : tx.to_pk = some r) :
    ∃ sender rcpt,
      s.accounts tx.from_pk = some sender ∧ s.accounts r = some rcpt ∧
        s'.accounts = transferMutations now tx r s.accounts := by
  unfold applyTransaction at h
  simp only [appendRecord, hto, hty] at h
  repeat' split at h
  all_goals
    first
    | (simp at h; done)
    | exact absurd trivial (by assumption)
    | (simp only [Prod.mk.injEq, true_and] at h
       subst h
       exact ⟨_, _, by assumption, by assumption, rfl⟩)

/-! ## C5 — balance conservation for accepted transfers -/

/-- C5 counterexample: a transfer carrying no recipient field is accepted
by `applyTransaction` and leaves the accounts map untouched — no balance
changes and no fee is burned, so total supply does not decrease. -/
theorem transfer_without_recipient_burns_no_fee :
    exTx5.type = .transfer ∧ exApply5.1 = .success ∧
      exApply5.2.accounts = scenarioLedger.accounts :=
  ⟨rfl, by decide, rfl⟩

/-- C5 (amended): for every accepted transfer that carries a recipient
field, all other accounts are untouched, a self-transfer changes the one
involved balance by `−fee`, and a transfer between distinct accounts
debits the sender by `amount + fee` and credits the recipient by `amount`
— so the involved balances change by `−fee` in total and total supply
decreases by exactly the fee. -/
theorem transfer_conserves_balances
    (hashTx : Tx → String) (sigOk : Tx → Bool) (now : Nat) (tx : Tx)
    (s s' : LedgerState) (r : String)
    (h : applyTransaction hashTx sigOk now tx s = (.success, s'))
    (hty : tx.type = .transfer) (hto : tx.to_pk = some r) :
    (∀ k, k ≠ tx.from_pk → k ≠ r → s'.accounts k = s.accounts k) ∧
    (tx.from_pk = r →
      getBalance s' r = getBalance s r - transaction_fee) ∧
    (tx.from_pk ≠ r →
      getBalance s' tx.from_pk
          = getBalance s tx.from_pk - (tx.amount + transaction_fee) ∧
        getBalance s' r = getBalance s r + tx.amount) := by
  obtain ⟨sender, rcpt, hs, hr, hacc⟩ :=
    applyTransaction_transfer_success hashTx sigOk now tx s s' r h hty hto
  refine ⟨?_, ?_, ?_⟩
  · intro k hk1 hk2
    rw [hacc]
    simp [transferMutations, updAccount, hk1, hk2]
  · intro heq
    subst heq
    simp only [getBalance, hacc]
    simp [transferMutations, updAccount, hs, transaction_fee]
    omega
  · intro hne
    constructor
    · simp only [getBalance, hacc]
      simp [transferMutations, updAccount, hs, hne, Ne.symm hne]
    · simp only [getBalance, hacc]
      simp [transferMutations, updAccount, hr, hne, Ne.symm hne]

/-- Witness for C5: the fresh-transfer scenario `B → C` of 100 shells ends
with `B` at 899 and `C` at 100. -/
theorem transfer_conserves_balances_witness :
    getBalance exApply5w.2 "B" = 899 ∧ getBalance exApply5w.2 "C" = 100 := by
  have h := transfer_conserves_balances (fun _ => "t4") (fun _ => true) 6
    exTx5w scenarioLedger exApply5w.2 "C" rfl rfl rfl
  have h1 := (h.2.2 (by decide)).1
  have h2 := (h.2.2 (by decide)).2
  have hB : getBalance scenarioLedger "B" = 1000 := by decide
  have hC : getBalance scenarioLedger "C" = 0 := by decide
  simp only [exTx5w, transaction_fee] at h1 h2
  rw [hB] at h1
  rw [hC] at h2
  exact ⟨by omega, by omega⟩

/-! ## C6 — unknown recipient handling -/

/-- C6 counterexample: a transfer that carries no recipient field at all
is not rejected with UNKNOWN_RECIPIENT — it is accepted. -/
theorem transfer_without_recipient_field_accepted :
    exTx6.type = .transfer ∧ exTx6.to_pk = none ∧ exApply6.1 = .success :=
  ⟨rfl, rfl, by decide⟩

/-- C6 (amended): for every transfer whose recipient field is present but
names an account absent from the ledger, once the earlier checks pass
(no duplicate, known sender, correct nonce, valid signature, economic
check), `applyTransaction` fails with the recipient-not-found error and
returns the state unchanged.  A transfer carrying no recipient field at
all is instead accepted (see the counterexample). -/
theorem transfer_unknown_recipient_rejected
    (hashTx : Tx → String) (sigOk : Tx → Bool) (now : Nat) (tx : Tx)
    (s : LedgerState) (r : String) (sender : Account)
    (hty : tx.type = .transfer) (hto : tx.to_pk = some r)
    (hdup : s.transactions (hashTx tx) = none)
    (hsend : s.accounts tx.from_pk = some sender)
    (hnonce : tx.nonce = sender.nonce + 1)
    (hsig : sigOk tx = true)
    (hecon : validateEconomicConstraints tx sender.balance = none)
    (hrec : s.accounts r = none) :
    applyTransaction hashTx sigOk now tx s
      = (.failure "Recipient account not found", s) := by
  unfold applyTransaction
  simp [hdup, hsend, hnonce, hsig, hecon, hto, hty, hrec]

/-- Witness for C6: a transfer from `B` to the absent account `X` is
rejected with the recipient-not-found error, ledger unchanged. -/
theorem transfer_unknown_recipient_rejected_witness :
    applyTransaction (fun _ => "t6") (fun _ => true) 7 exTx6w scenarioLedger
      = (.failure "Recipient account not found", scenarioLedger) :=
  transfer_unknown_recipient_rejected (fun _ => "t6") (fun _ => true) 7 exTx6w
    scenarioLedger "X" (mkAccount "B" 1000) rfl rfl rfl (by decide) rfl rfl
    (by decide) rfl

/-! ## C4 — nonce monotonicity -/

/-- C4: an accepted `skill_purchase` does not advance the sender's nonce.
The scenario transaction from `B` (nonce 1 over 50 shells) is accepted and
logged as one transaction originating from `B`, yet `B`'s stored nonce
stays 0, not 1, diverging from the claim that every accepted transaction
advances the sender's nonce by exactly 1. -/
theorem skill_purchase_does_not_advance_nonce :
    exApply4.1 = .success ∧
      exApply4.2.account_transactions "B" = ["t1"] ∧
      getNonce exApply4.2 "B" = 0 := by
  refine ⟨by decide, by decide, by decide⟩

/-! ## C1 — skill purchases and value transfer -/

/-- C1: the scenario-5 purchase (buyer `B` with 1000 shells buys `M` at
price 50 from creator `C`) reports success, but `applyTransaction` moves
no value for `skill_purchase` transactions: `B` keeps 1000 (the claim
expects 949), `C` keeps 0 (the claim expects 50), and `B`'s nonce stays 0
(the claim expects it to advance to 1), even though the purchase is
recorded. -/
theorem scenario5_purchase_moves_no_value :
    exPurchase.1 = .success ∧
      getBalance exPurchase.2.2 "B" = 1000 ∧
      getBalance exPurchase.2.2 "C" = 0 ∧
      getNonce exPurchase.2.2 "B" = 0 ∧
      (exPurchase.2.1.purchases "M").length = 1 := by
  refine ⟨by decide, by decide, by decide, by decide, by decide⟩

/-! ## C8 — attestation discount and attester reputation -/

/-- C8 counterexample: `A` has reputation 0 and cannot attest, yet
registering `N` with stake 25 while naming `A` as attester succeeds. -/
theorem register_with_low_reputation_attester_succeeds :
    canAttest exIdentityStore "A" = false ∧ exRegister.1 = .success := by
  refine ⟨by decide, by decide⟩

/-- C8 (amended): `registerBot` succeeds exactly when the identity exists
and the stake reaches the minimum — 25 whenever any attester is named,
regardless of that attester's reputation or existence, 50 otherwise.  The
reputation-≥-100 eligibility rule lives only in the separate `canAttest`
query, which `registerBot` never consults. -/
theorem registerBot_success_iff (now : Nat) (pk : String) (stake : Int)
    (att : Option String) (st : IdentityStorage) :
    (registerBot now pk stake att st).1 = .success ↔
      ((st.bots pk).isSome ∧
        (if att.isSome then stake_attestation_reduction
         else stake_registration) ≤ stake) := by
  unfold registerBot
  cases hb : st.bots pk with
  | none => simp [hb]
  | some identity =>
    cases att <;> simp [hb] <;> split <;> simp_all

/-! ## C10 — discounted registration is reported unregistered -/

/-- C10: after `registerBot` succeeds with an attester and a stake below
50 (the attested minimum 25 is allowed), `isRegistered` reports `false` at
any query time, because it requires `staked_amount ≥ 50` regardless of
attestation. -/
theorem discounted_registration_not_registered
    (now now' : Nat) (pk a : String) (stake : Int)
    (st st' : IdentityStorage)
    (_hlo : stake_attestation_reduction ≤ stake)
    (hhi : stake < stake_registration)
    (h : registerBot now pk stake (some a) st = (.success, st')) :
    isRegistered now' st' pk = false := by
  unfold registerBot at h
  cases hb : st.bots pk with
  | none => simp [hb] at h
  | some identity =>
    simp only [hb] at h
    split at h
    · simp at h
    · simp only [Prod.mk.injEq, true_and] at h
      subst h
      simp only [isRegistered, if_pos rfl]
      simp [stake_registration] at hhi ⊢
      intro hge
      omega

/-- Witness for C10: after the stake-25 attested registration of `N`,
`isRegistered` returns `false`. -/
theorem discounted_registration_not_registered_witness :
    isRegistered 1 exRegister.2 "N" = false :=
  discounted_registration_not_registered 0 1 "N" "A" 25 exIdentityStore
    exRegister.2 (by decide) (by decide) rfl

/-! ## C9 — canonical hash stability under key reordering -/

/-- Size of a member of a JSON array is smaller than the array. -/
theorem sizeOf_mem_lt_arr {x : Jv} {l : List Jv} (hx : x ∈ l) :
    sizeOf x < sizeOf (Jv.arr l) := by
  have h1 := List.sizeOf_lt_of_mem hx
  simp only [Jv.arr.sizeOf_spec]
  omega

/-- Size of a field value of a JSON object is smaller than the object. -/
theorem sizeOf_mem_snd_lt_obj {kv : String × Jv} {l : List (String × Jv)}
    (h : kv ∈ l) : sizeOf kv.2 < sizeOf (Jv.obj l) := by
  have h1 := List.sizeOf_lt_of_mem h
  have h2 : sizeOf kv.2 < sizeOf kv := by cases kv; simp_arith
  simp only [Jv.obj.sizeOf_spec]
  omega

/-- `canonFields` keeps the keys. -/
theorem canonFields_map_fst (l : List (String × Jv)) :
    (canonFields l).map Prod.fst = l.map Prod.fst := by
  induction l with
  | nil => rfl
  | cons kv t iht => simp [canonFields, iht]

/-- `canonFields` is a map over the field list. -/
theorem canonFields_eq_map (l : List (String × Jv)) :
    canonFields l = l.map (fun kv => (kv.1, canonicalJson kv.2)) := by
  induction l with
  | nil => rfl
  | cons kv t iht => simp [canonFields, iht]

/-- Two permuted field lists with distinct keys have the same key-sorted
order. -/
theorem sortFields_perm_eq {l₁ l₂ : List (String × String)}
    (hp : l₁.Perm l₂) (hn : (l₁.map Prod.fst).Nodup) :
    sortFields l₁ = sortFields l₂ := by
  haveI : IsAntisymm (String × String) (fun a b => a.1 < b.1) :=
    ⟨fun _ _ h h' => absurd h (lt_asymm h')⟩
  have h₁ : (sortFields l₁).Perm l₁ := List.perm_insertionSort _ _
  have h₂ : (sortFields l₂).Perm l₂ := List.perm_insertionSort _ _
  have hps : (sortFields l₁).Perm (sortFields l₂) :=
    h₁.trans (hp.trans h₂.symm)
  have hs₁ : (sortFields l₁).Sorted keyLE := List.sorted_insertionSort _ _
  have hs₂ : (sortFields l₂).Sorted keyLE := List.sorted_insertionSort _ _
  have hn₁ : ((sortFields l₁).map Prod.fst).Nodup :=
    ((h₁.map Prod.fst).nodup_iff).mpr hn
  have hn₂ : ((sortFields l₂).map Prod.fst).Nodup :=
    (((hps.symm.trans h₁).map Prod.fst).nodup_iff).mpr hn
  have hlt₁ : (sortFields l₁).Pairwise (fun a b => a.1 < b.1) :=
    (hs₁.and (List.pairwise_map.mp hn₁)).imp
      (fun h => lt_of_le_of_ne h.1 h.2)
  have hlt₂ : (sortFields l₂).Pairwise (fun a b => a.1 < b.1) :=
    (hs₂.and (List.pairwise_map.mp hn₂)).imp
      (fun h => lt_of_le_of_ne h.1 h.2)
  exact List.eq_of_perm_of_sorted hps hlt₁ hlt₂

/-- Key-reordering invariance of `canonicalJson`, by strong induction on
the size of the value. -/
theorem canonReorderAux :
    ∀ (n : Nat) (a b : Jv), sizeOf a ≤ n → KeysNodup a → Reorder a b →
      canonicalJson a = canonicalJson b := by
  intro n
  induction n with
  | zero =>
    intro a b hle _ _
    exact absurd hle (by cases a <;> simp_arith)
  | succ n ih =>
    intro a b hle hnd hre
    cases hre with
    | atom s => rfl
    | @arr l₁ l₂ h =>
      cases hnd with
      | arr hmem =>
        have key : ∀ (m₁ m₂ : List Jv), List.Forall₂ Reorder m₁ m₂ →
            (∀ x ∈ m₁, sizeOf x ≤ n ∧ KeysNodup x) →
            canonList m₁ = canonList m₂ := by
          intro m₁ m₂ hf
          induction hf with
          | nil => intro _; rfl
          | @cons x y xs ys hxy _ ihf =>
            intro hprem
            have hx := hprem x (by simp)
            simp only [canonList]
            rw [ih x y hx.1 hx.2 hxy,
              ihf (fun z hz => hprem z (by simp [hz]))]
        have : canonList l₁ = canonList l₂ := by
          refine key l₁ l₂ h (fun x hx => ⟨?_, hmem x hx⟩)
          have := sizeOf_mem_lt_arr hx
          omega
        simp only [canonicalJson, this]
    | @obj l₁ l₂ l hp hkeq hvals =>
      cases hnd with
      | obj hk hmem =>
        -- values of the permuted list serialize equally to those of l₂
        have key2 : ∀ (m : List (String × Jv)) (m₂ : List (String × Jv)),
            m.map Prod.fst = m₂.map Prod.fst →
            List.Forall₂ Reorder (m.map Prod.snd) (m₂.map Prod.snd) →
            (∀ kv ∈ m, sizeOf kv.2 ≤ n ∧ KeysNodup kv.2) →
            canonFields m = canonFields m₂ := by
          intro m
          induction m with
          | nil =>
            intro m₂ hkeys _ _
            have : m₂ = [] := by
              cases m₂ with
              | nil => rfl
              | cons a t => simp at hkeys
            simp [this]
          | cons kv t iht =>
            intro m₂ hkeys hvs hprem
            cases m₂ with
            | nil => simp at hkeys
            | cons kv₂ t₂ =>
              simp only [List.map_cons] at hkeys hvs
              cases hvs with
              | cons hhead htail =>
                have hx := hprem kv (by simp)
                simp only [canonFields]
                rw [List.cons.injEq] at hkeys
                rw [ih kv.2 kv₂.2 hx.1 hx.2 hhead, hkeys.1,
                  iht t₂ hkeys.2 htail
                    (fun z hz => hprem z (by simp [hz]))]
        have hlmem : ∀ kv ∈ l, sizeOf kv.2 ≤ n ∧ KeysNodup kv.2 := by
          intro kv hkv
          have hkv₁ : kv ∈ l₁ := hp.mem_iff.mpr hkv
          refine ⟨?_, hmem kv hkv₁⟩
          have := sizeOf_mem_snd_lt_obj hkv₁
          omega
        have heqfields : canonFields l = canonFields l₂ :=
          key2 l l₂ hkeq hvals hlmem
        have hpermfields : (canonFields l₁).Perm (canonFields l) := by
          rw [canonFields_eq_map, canonFields_eq_map]
          exact hp.map _
        have hnd₁ : ((canonFields l₁).map Prod.fst).Nodup := by
          rw [canonFields_map_fst]
          exact hk
        have : sortFields (canonFields l₁) = sortFields (canonFields l₂) :=
          sortFields_perm_eq (hpermfields.trans (heqfields ▸ List.Perm.refl _)) hnd₁
        simp only [canonicalJson, this]

/-- Key-reordering invariance of `canonicalJson`. -/
theorem canonicalJson_reorder (a b : Jv) (hnd : KeysNodup a)
    (hre : Reorder a b) : canonicalJson a = canonicalJson b :=
  canonReorderAux (sizeOf a) a b le_rfl hnd hre

/-- C9: for every finite JSON object with distinct keys at every level and
every reordering of its keys at any nesting level, `hashData` produces the
same hex digest, because `canonicalJson` serializes with keys sorted
lexicographically at every object level. -/
theorem hashData_key_reorder_invariant
    (sha256hex : String → String) (a b : Jv)
    (hnd : KeysNodup a) (hre : Reorder a b) :
    hashData sha256hex a = hashData sha256hex b := by
  unfold hashData
  rw [canonicalJson_reorder a b hnd hre]

/-- `exJvA` has distinct keys at every level. -/
theorem exJvA_keysNodup : KeysNodup exJvA := by
  refine KeysNodup.obj (by decide) ?_
  intro kv hkv
  simp only [exJvA, List.mem_cons, List.mem_singleton] at hkv
  rcases hkv with rfl | rfl | h
  · exact KeysNodup.atom _
  · refine KeysNodup.obj (by decide) ?_
    intro kv' h'
    simp only [List.mem_cons, List.mem_singleton] at h'
    rcases h' with rfl | rfl | h'
    · exact KeysNodup.atom _
    · exact KeysNodup.atom _
    · exact absurd h' (List.not_mem_nil _)
  · exact absurd h (List.not_mem_nil _)

/-- `exJvB` is a key-reordering of `exJvA`. -/
theorem exJvA_reorder_exJvB : Reorder exJvA exJvB := by
  refine Reorder.obj
    [("a", Jv.obj [("y", .atom "2"), ("x", .atom "3")]), ("b", .atom "1")]
    (List.Perm.swap _ _ _) rfl ?_
  refine List.Forall₂.cons ?_
    (List.Forall₂.cons (Reorder.atom _) List.Forall₂.nil)
  refine Reorder.obj [("x", .atom "3"), ("y", .atom "2")]
    (List.Perm.swap _ _ _) rfl ?_
  exact List.Forall₂.cons (Reorder.atom _)
    (List.Forall₂.cons (Reorder.atom _) List.Forall₂.nil)

/-- Witness for C9: the two concrete reorderings of the same two-level
object hash identically (for any digest function; here the identity). -/
theorem hashData_key_reorder_invariant_witness :
    hashData (fun s => s) exJvA = hashData (fun s => s) exJvB :=
  hashData_key_reorder_invariant (fun s => s) exJvA exJvB
    exJvA_keysNodup exJvA_reorder_exJvB

/-! ## PBFT invariant preservation -/

/-- At view 0 the elected leader is the node itself (`members[0]`). -/
theorem electLeader_zero (cfg : ValidatorConfig) :
    electLeader cfg 0 = cfg.validator_id := by
  unfold electLeader
  split
  · rfl
  · simp [Nat.zero_mod]

/-- The constructor state satisfies the invariant. -/
theorem initState_inv (cfg : ValidatorConfig) (led₀ : LedgerState) :
    Inv cfg (initState cfg led₀) := by
  refine ⟨electLeader_zero cfg, ?_, ?_, ?_, ?_⟩
  · simp [initState, electLeader_zero cfg]
  · intro d p hp
    simp [initState] at hp
  · intro e he
    simp [initState] at he
  · intro e he
    simp [initState] at he

/-- `commitTransaction` preserves the invariant: it only deletes pending
entries and vote sets and swaps the ledger. -/
theorem commitTransaction_inv {cfg : ValidatorConfig} (hashTx : Tx → String)
    (sigOk : Tx → Bool) (now : Nat) (dg : String) (tx : Tx) {s : PBFTState}
    (h : Inv cfg s) : Inv cfg (commitTransaction hashTx sigOk now dg tx s) := by
  obtain ⟨h1, h2, h3, h4, h5⟩ := h
  simp only [commitTransaction]
  split
  · refine ⟨h1, h2, ?_, h4, h5⟩
    intro d p hp
    by_cases hd : d = dg
    · simp [hd] at hp
    · exact h3 d p (by simpa [hd] using hp)
  · exact ⟨h1, h2, h3, h4, h5⟩

/-- `handleCommit` preserves the invariant. -/
theorem handleCommit_inv {cfg : ValidatorConfig} (hashTx : Tx → String)
    (sigOk : Tx → Bool) (now : Nat) (ok : Bool) (msg : ConsensusMsg)
    {s : PBFTState} (h : Inv cfg s) :
    Inv cfg (handleCommit cfg hashTx sigOk now ok msg s) := by
  obtain ⟨h1, h2, h3, h4, h5⟩ := h
  simp only [handleCommit]
  split
  · exact ⟨h1, h2, h3, h4, h5⟩
  split
  · exact ⟨h1, h2, h3, h4, h5⟩
  split
  · exact ⟨h1, h2, h3, h4, h5⟩
  split
  · split
    next p heq =>
      split
      · refine commitTransaction_inv hashTx sigOk now msg.digest p.tx
          ⟨h1, h2, ?_, h4, h5⟩
        intro d q hq
        by_cases hd : d = msg.digest
        · subst hd
          simp at hq
          rw [← hq]
          exact h3 msg.digest p heq
        · exact h3 d q (by simpa [hd] using hq)
      · exact ⟨h1, h2, h3, h4, h5⟩
    next heq => exact ⟨h1, h2, h3, h4, h5⟩
  · exact ⟨h1, h2, h3, h4, h5⟩

/-- `broadcastCommit` preserves the invariant. -/
theorem broadcastCommit_inv {cfg : ValidatorConfig} (hashTx : Tx → String)
    (sigOk : Tx → Bool) (now : Nat) (dg : String) {s : PBFTState}
    (h : Inv cfg s) : Inv cfg (broadcastCommit cfg hashTx sigOk now dg s) := by
  obtain ⟨h1, h2, h3, h4, h5⟩ := h
  simp only [broadcastCommit]
  exact handleCommit_inv hashTx sigOk now true _ ⟨h1, h2, h3, h4, h5⟩

/-- `handlePrepare` preserves the invariant: a commit event is recorded
only under the counted-quorum guard and snapshots the `pre_prepared` flag
of a pending entry, which the invariant asserts is set. -/
theorem handlePrepare_inv {cfg : ValidatorConfig} (hashTx : Tx → String)
    (sigOk : Tx → Bool) (now : Nat) (ok : Bool) (msg : ConsensusMsg)
    {s : PBFTState} (h : Inv cfg s) :
    Inv cfg (handlePrepare cfg hashTx sigOk now ok msg s) := by
  obtain ⟨h1, h2, h3, h4, h5⟩ := h
  simp only [handlePrepare]
  split
  · exact ⟨h1, h2, h3, h4, h5⟩
  split
  · exact ⟨h1, h2, h3, h4, h5⟩
  split
  · exact ⟨h1, h2, h3, h4, h5⟩
  split
  next hq =>
    split
    next p heq =>
      split
      · refine broadcastCommit_inv hashTx sigOk now msg.digest
          ⟨h1, h2, ?_, ?_, ?_⟩
        · intro d q hdq
          by_cases hd : d = msg.digest
          · subst hd
            simp at hdq
            rw [← hdq]
            exact h3 msg.digest p heq
          · exact h3 d q (by simpa [hd] using hdq)
        · intro e he
          simp only [List.mem_append, List.mem_singleton] at he
          rcases he with he | rfl
          · exact h4 e he
          · exact h3 msg.digest p heq
        · intro e he
          simp only [List.mem_append, List.mem_singleton] at he
          rcases he with he | rfl
          · exact h5 e he
          · exact hq
      · exact ⟨h1, h2, h3, h4, h5⟩
    next heq => exact ⟨h1, h2, h3, h4, h5⟩
  · exact ⟨h1, h2, h3, h4, h5⟩

/-- `broadcastPrepare` preserves the invariant. -/
theorem broadcastPrepare_inv {cfg : ValidatorConfig} (hashTx : Tx → String)
    (sigOk : Tx → Bool) (now : Nat) (dg : String) {s : PBFTState}
    (h : Inv cfg s) : Inv cfg (broadcastPrepare cfg hashTx sigOk now dg s) := by
  obtain ⟨h1, h2, h3, h4, h5⟩ := h
  simp only [broadcastPrepare]
  exact handlePrepare_inv hashTx sigOk now true _ ⟨h1, h2, h3, h4, h5⟩

/-- `handlePrePrepare` preserves the invariant (it can only set a pending
entry's `pre_prepared` flag). -/
theorem handlePrePrepare_inv {cfg : ValidatorConfig} (hashTx : Tx → String)
    (sigOk : Tx → Bool) (now : Nat) (ok : Bool) (msg : ConsensusMsg)
    {s : PBFTState} (h : Inv cfg s) :
    Inv cfg (handlePrePrepare cfg hashTx sigOk now ok msg s) := by
  obtain ⟨h1, h2, h3, h4, h5⟩ := h
  simp only [handlePrePrepare]
  split
  · exact ⟨h1, h2, h3, h4, h5⟩
  split
  · exact ⟨h1, h2, h3, h4, h5⟩
  split
  · exact ⟨h1, h2, h3, h4, h5⟩
  split
  · exact ⟨h1, h2, h3, h4, h5⟩
  split
  next heq => exact ⟨h1, h2, h3, h4, h5⟩
  next p heq =>
    refine broadcastPrepare_inv hashTx sigOk now msg.digest
      ⟨h1, h2, ?_, h4, h5⟩
    intro d q hdq
    by_cases hd : d = msg.digest
    · subst hd
      simp at hdq
      rw [← hdq]
    · exact h3 d q (by simpa [hd] using hdq)

/-- `handlePrePrepare` establishes the invariant from a state whose only
possibly-unflagged pending entry is the one the message pre-prepares, when
the message passes every guard (the internal call during submission). -/
theorem handlePrePrepare_inv_except {cfg : ValidatorConfig}
    (hashTx : Tx → String) (sigOk : Tx → Bool) (now : Nat)
    (msg : ConsensusMsg) {s : PBFTState}
    (h1 : s.leader_id = cfg.validator_id) (h2 : s.is_leader = true)
    (h3 : ∀ d p, s.pending d = some p → d ≠ msg.digest → p.pre_prepared = true)
    (h4 : EventsPreOK s) (h5 : EventsQuorumOK cfg s)
    (hty : msg.type = .prePrepare) (hview : msg.view = s.view)
    (hld : msg.validator = s.leader_id)
    (hpend : (s.pending msg.digest).isSome = true) :
    Inv cfg (handlePrePrepare cfg hashTx sigOk now true msg s) := by
  simp only [handlePrePrepare]
  rw [if_neg (by simp [hty]), if_neg (by simp), if_neg (by simp [hview]),
    if_neg (by simp [hld])]
  obtain ⟨p, heq⟩ := Option.isSome_iff_exists.mp hpend
  rw [heq]
  refine broadcastPrepare_inv hashTx sigOk now msg.digest
    ⟨h1, h2, ?_, h4, h5⟩
  intro d q hdq
  by_cases hd : d = msg.digest
  · subst hd
    simp at hdq
    rw [← hdq]
  · exact h3 d q (by simpa [hd] using hdq) hd

/-- `broadcastPrePrepare` establishes the invariant from a state whose
only possibly-unflagged pending entry is the broadcast digest. -/
theorem broadcastPrePrepare_inv_except {cfg : ValidatorConfig}
    (hashTx : Tx → String) (sigOk : Tx → Bool) (now : Nat) (dg : String)
    {s : PBFTState}
    (h1 : s.leader_id = cfg.validator_id) (h2 : s.is_leader = true)
    (h3 : ∀ d p, s.pending d = some p → d ≠ dg → p.pre_prepared = true)
    (h4 : EventsPreOK s) (h5 : EventsQuorumOK cfg s)
    (hpend : (s.pending dg).isSome = true) :
    Inv cfg (broadcastPrePrepare cfg hashTx sigOk now dg s) := by
  simp only [broadcastPrePrepare]
  exact handlePrePrepare_inv_except hashTx sigOk now _ h1 h2 h3 h4 h5 rfl rfl
    h1.symm hpend

/-- `submitTransaction` preserves the invariant: the fresh pending entry
is created unflagged, but the node (always leader at view 0) immediately
pre-prepares it within the same call. -/
theorem submitTransaction_inv {cfg : ValidatorConfig} (hashTx : Tx → String)
    (sigOk : Tx → Bool) (now : Nat) (tx : Tx) {s : PBFTState}
    (h : Inv cfg s) :
    Inv cfg (submitTransaction cfg hashTx sigOk now tx s).2 := by
  obtain ⟨h1, h2, h3, h4, h5⟩ := h
  simp only [submitTransaction]
  split
  · exact ⟨h1, h2, h3, h4, h5⟩
  split
  · exact ⟨h1, h2, h3, h4, h5⟩
  -- the leader test resolves to true (`h2`), leaving the broadcast call
  refine broadcastPrePrepare_inv_except hashTx sigOk now (hashTx tx)
    h1 h2 ?_ h4 h5 (by simp)
  intro d q hdq hd
  exact h3 d q (by simpa [hd] using hdq)

/-- Every step of the validator preserves the invariant. -/
theorem step_inv {cfg : ValidatorConfig} {hashTx : Tx → String}
    {sigOk : Tx → Bool} {s s' : PBFTState}
    (hs : Step cfg hashTx sigOk s s') (h : Inv cfg s) : Inv cfg s' := by
  cases hs with
  | submit now tx _ => exact submitTransaction_inv hashTx sigOk now tx h
  | prePrepare now ok msg _ => exact handlePrePrepare_inv hashTx sigOk now ok msg h
  | prepare now ok msg _ => exact handlePrepare_inv hashTx sigOk now ok msg h
  | commit now ok msg _ => exact handleCommit_inv hashTx sigOk now ok msg h
  | ledger led' _ =>
    obtain ⟨h1, h2, h3, h4, h5⟩ := h
    exact ⟨h1, h2, h3, h4, h5⟩

/-- The invariant holds in every reachable validator state. -/
theorem reachable_inv {cfg : ValidatorConfig} {hashTx : Tx → String}
    {sigOk : Tx → Bool} {s : PBFTState}
    (h : Reachable cfg hashTx sigOk s) : Inv cfg s := by
  induction h with
  | init led₀ => exact initState_inv cfg led₀
  | step _ hs ih => exact step_inv hs ih

/-! ## C2 — PREPARE quorum before COMMIT -/

/-- C2 counterexample: with four validators (`f = 1`, quorum `3`) the
node broadcasts COMMIT for digest `d` in a reachable state in which
PREPAREs from only two distinct validators (itself and peer `p1`) are
recorded — fewer than `2f + 1 = 3` — because the handler adds one
implicit vote on top of the recorded set, double-counting its own
already-recorded PREPARE. -/
theorem commit_broadcast_with_two_recorded_prepares :
    Reachable cfg4 pbftHash pbftSig pbftS2 ∧
      pbftS2.commit_events ≠ [] ∧
      (pbftS2.commit_events.getD 0 default).prepSet.card < quorum cfg4 :=
  ⟨Reachable.step
      (Reachable.step (Reachable.init pbftLedger) (Step.submit 0 ptx _))
      (Step.prepare 0 true prepP1 _),
    by decide, by decide⟩

/-- C2 (amended): in every reachable validator state, every COMMIT
broadcast happened only once the recorded PREPARE votes for the digest
plus one implicit vote of the handling node reached `2f + 1` — i.e. at
least `2f` distinct validators were recorded (the node's own recorded
PREPARE can be double-counted by the implicit vote; the vote set is keyed
by digest, with the view checked on receipt and the sequence ignored). -/
theorem commit_quorum_counts_implicit_self_vote
    (cfg : ValidatorConfig) (hashTx : Tx → String) (sigOk : Tx → Bool)
    {s : PBFTState} (h : Reachable cfg hashTx sigOk s) :
    ∀ e ∈ s.commit_events, quorum cfg ≤ e.prepSet.card + 1 :=
  (reachable_inv h).2.2.2.2

/-- Witness for C2: in the concrete four-validator trace the recorded
set {v, p1} plus the implicit vote meets the quorum of 3. -/
theorem commit_quorum_counts_implicit_self_vote_witness :
    quorum cfg4 ≤ (pbftS2.commit_events.getD 0 default).prepSet.card + 1 :=
  commit_quorum_counts_implicit_self_vote cfg4 pbftHash pbftSig
    (Reachable.step
      (Reachable.step (Reachable.init pbftLedger) (Step.submit 0 ptx _))
      (Step.prepare 0 true prepP1 _))
    _ (by decide)

/-! ## C3 — no COMMIT without a recorded PRE-PREPARE -/

/-- C3: in every reachable validator state, every COMMIT broadcast
happened for a pending entry whose `pre_prepared` flag was set — a
PRE-PREPARE from the current leader had been recorded — no matter how
many PREPARE messages arrived.  (`handlePrepare` never tests the flag;
the property holds because every pending entry of a reachable state is
pre-prepared: the node, always leader of view 0, pre-prepares each
submission within the submitting call.) -/
theorem commit_only_after_preprepare
    (cfg : ValidatorConfig) (hashTx : Tx → String) (sigOk : Tx → Bool)
    {s : PBFTState} (h : Reachable cfg hashTx sigOk s) :
    ∀ e ∈ s.commit_events, e.pre_prepared = true :=
  (reachable_inv h).2.2.2.1

/-- Witness for C3: the commit broadcast of the concrete four-validator
trace carries `pre_prepared = true`. -/
theorem commit_only_after_preprepare_witness :
    (pbftS2.commit_events.getD 0 default).pre_prepared = true :=
  commit_only_after_preprepare cfg4 pbftHash pbftSig
    (Reachable.step
      (Reachable.step (Reachable.init pbftLedger) (Step.submit 0 ptx _))
      (Step.prepare 0 true prepP1 _))
    _ (by decide)

end Clawrrency
